import Mathlib

/-!
Verification of the `ftpmachine` package of RyanDevlin/climate-bot
(src/pkg/robot/robot.go, the document holding `GetMeta`/`search`, lines
33-432 of the concatenated file; helper line numbers below refer to that
file).

The Go code is shallowly embedded: pure fragments become Lean functions,
the remote FTP server becomes an explicit tree value, the concurrent
search/connection machinery becomes small-step transition systems whose
steps are transcribed from the code, one step per Go statement that
touches shared state.  Machine integers stay `Nat`/`Int` (no overflow is
reachable in the modelled paths), fallible Go returns become `Except` or
an explicit result type that also has constructors for `return nil, nil`
and for a process abort (nil-pointer dereference / `log.Fatal`).
-/

namespace Robot

/-! ## Endpoint validator (robot.go lines 376-432, `isDomainName`) -/

/-- Character classes used by `isDomainName`.  `robot.go` line 399 treats
ASCII letters and `_` alike. -/
def isLetterU (c : Char) : Bool :=
  ('a' ≤ c && c ≤ 'z') || ('A' ≤ c && c ≤ 'Z') || c = '_'

/-- ASCII digit test, `robot.go` line 402. -/
def isDigitC (c : Char) : Bool :=
  '0' ≤ c && c ≤ '9'

/-- The loop state of `isDomainName`: `last` (previous byte, initially `'.'`),
`nonNumeric` (a letter, underscore or hyphen was seen), `partlen` (length of
the current label so far).  `robot.go` lines 390-392. -/
structure LoopSt where
  last : Char
  nonNumeric : Bool
  partlen : Nat
deriving DecidableEq

/-- One iteration of the `for` loop of `isDomainName` (`robot.go` lines
393-425); `none` models the early `return false`. -/
def domainStep (st : LoopSt) (c : Char) : Option LoopSt :=
  if isLetterU c then some ⟨c, true, st.partlen + 1⟩
  else if isDigitC c then some ⟨c, st.nonNumeric, st.partlen + 1⟩
  else if c = '-' then
    if st.last = '.' then none
    else some ⟨c, true, st.partlen + 1⟩
  else if c = '.' then
    if st.last = '.' ∨ st.last = '-' then none
    else if st.partlen > 63 ∨ st.partlen = 0 then none
    else some ⟨c, st.nonNumeric, 0⟩
  else none

/-- The whole `for` loop of `isDomainName` over the bytes of `s`. -/
def domainLoop (st : LoopSt) : List Char → Option LoopSt
  | [] => some st
  | c :: cs =>
    match domainStep st c with
    | none => none
    | some st' => domainLoop st' cs

/-- The checks after the loop, `robot.go` lines 427-431. -/
def loopFinish : Option LoopSt → Bool
  | none => false
  | some st => !(st.last = '-') && !(st.partlen > 63) && st.nonNumeric

/-- `isDomainName` (`robot.go` lines 376-432), on the byte list of the
hostname.  The guard mirrors line 386:
`l == 0 || l > 254 || l == 254 && s[l-1] != '.'`. -/
def isDomainName (s : List Char) : Bool :=
  if s.length = 0 ∨ s.length > 254 ∨ (s.length = 254 ∧ ¬ s.getLast? = some '.')
  then false
  else loopFinish (domainLoop ⟨'.', false, 0⟩ s)

/-- The sanity ceiling `connectionLimit`, `robot.go` line 64. -/
def connectionLimit : Int := 65535

/-- The validated endpoint configuration that `NewFTPMachine` constructs
(`robot.go` lines 134-148); the live channels are modelled separately. -/
structure FTPMachineCfg where
  hostname : List Char
  maxConnections : Int
deriving DecidableEq

/-- The two validation errors of `NewFTPMachine` (`robot.go` lines 126-132). -/
inductive NewErr where
  | invalidHostname
  | badMaxConnections
deriving DecidableEq

/-- `NewFTPMachine` (`robot.go` lines 122-151): hostname validation, then the
range check `maxConnections > connectionLimit || maxConnections < 1`, then the
pure construction.  No I/O happens anywhere in this function. -/
def NewFTPMachine (hostname : List Char) (maxConnections : Int) :
    Except NewErr FTPMachineCfg :=
  if ¬ isDomainName hostname = true then .error .invalidHostname
  else if maxConnections > connectionLimit ∨ maxConnections < 1 then
    .error .badMaxConnections
  else .ok ⟨hostname, maxConnections⟩

/-- Splits a hostname at every dot; labels are the pieces.  `splitLabels []`
is `[[]]` (one empty label), matching the usual string `splitOn`. -/
def splitLabels : List Char → List (List Char)
  | [] => [[]]
  | c :: cs =>
    if c = '.' then [] :: splitLabels cs
    else
      match splitLabels cs with
      | [] => [[c]]
      | lab :: labs => (c :: lab) :: labs

/-- The validation rule exactly as claim C8 words it: each label at most 63
characters, total length at most 254, no hyphen adjacent to a dot or at a
label boundary, at least one non-numeric character overall. -/
def claimDomainValid (s : List Char) : Bool :=
  (splitLabels s).all (fun lab => lab.length ≤ 63) &&
  s.length ≤ 254 &&
  (splitLabels s).all (fun lab =>
    !(lab.head? = some '-') && !(lab.getLast? = some '-')) &&
  s.any (fun c => !(isDigitC c))

/-- A 254-character hostname with labels of 63, 63, 63 and 62 letters: every
rule listed by claim C8 holds for it, yet `isDomainName` rejects it because
a 254-byte name is only accepted when it ends with a dot. -/
def hostEx : List Char :=
  List.replicate 63 'a' ++ '.' :: List.replicate 63 'a' ++
    '.' :: List.replicate 63 'a' ++ '.' :: List.replicate 62 'a'

/-- A character `isDomainName` accepts inside a name. -/
def goodChar (c : Char) : Bool :=
  isLetterU c || isDigitC c || c = '-' || c = '.'

/-- Characters that set the `nonNumeric` flag of `isDomainName`. -/
def dashOrLetter (c : Char) : Bool :=
  isLetterU c || c = '-'

/-- Adjacency constraint between consecutive bytes of a valid name (the
previous byte first): a hyphen may not follow a dot, a dot may not follow a
dot or a hyphen. -/
def okPair (a b : Char) : Prop :=
  (b = '-' → ¬ a = '.') ∧ (b = '.' → ¬ a = '.' ∧ ¬ a = '-')

instance (a b : Char) : Decidable (okPair a b) := by
  unfold okPair; infer_instance

/-- Declarative domain-name validity: the precise rule set `isDomainName`
implements.  Length at most 253 (254 only with a terminal dot); consecutive
bytes satisfy `okPair`, with a virtual leading dot ruling out a leading dot
or hyphen; only letters, digits, underscores, hyphens and dots occur; the
name does not end in a hyphen; every label has at most 63 characters; and
some character is a letter, an underscore or a hyphen. -/
def DomainSpec (s : List Char) : Prop :=
  1 ≤ s.length ∧
  (s.length ≤ 253 ∨ (s.length = 254 ∧ s.getLast? = some '.')) ∧
  List.Chain' okPair ('.' :: s) ∧
  (∀ c ∈ s, goodChar c = true) ∧
  ¬ ('.' :: s).getLast (List.cons_ne_nil _ _) = '-' ∧
  (∀ lab ∈ splitLabels s, lab.length ≤ 63) ∧
  (∃ c ∈ s, dashOrLetter c = true)

/-- Helper: first label of `s` (head of `splitLabels`). -/
def headLabelLen (s : List Char) : Nat :=
  ((splitLabels s).headD []).length

/-! ## The remote server and the transport client

The remote FTP server is a finite rose tree.  Paths are segment lists; the
`filepath.Join` calls of the Go code (lines 236, 273) become list append on
segments.  Listing a directory yields its children's entries; `ChangeDir`
succeeds exactly on paths naming a directory of the tree, which is how the
code distinguishes a missing path from an empty directory (lines 296-301). -/

/-- `ftp.EntryType` as used by the code: `EntryTypeFolder` guards fan-out
(line 272); files carry byte content for retrieval. -/
inductive EntryType where
  | file
  | folder
  | link
deriving DecidableEq

/-- A node of the remote directory tree: a file with byte content, or a
directory with children. -/
inductive FNode where
  | mkFile (name : String) (content : List Nat)
  | mkDir (name : String) (children : List FNode)

/-- Name of a node. -/
def nodeName : FNode → String
  | .mkFile nm _ => nm
  | .mkDir nm _ => nm

/-- Entry type of a node as a listing reports it. -/
def nodeType : FNode → EntryType
  | .mkFile _ _ => .file
  | .mkDir _ _ => .folder

/-- First child with the given name (the server resolves one name per
directory). -/
def findChild : List FNode → String → Option FNode
  | [], _ => none
  | c :: cs, s => if nodeName c = s then some c else findChild cs s

/-- Resolve a path (list of segments) from `root`.  `none` models a path
`ChangeDir` rejects. -/
def lookupNode : FNode → List String → Option FNode
  | n, [] => some n
  | .mkFile _ _, _ :: _ => none
  | .mkDir _ cs, s :: rest =>
    match findChild cs s with
    | none => none
    | some c => lookupNode c rest

/-- One line of a directory listing as `conn.c.List` returns it
(`jlaffaye/ftp`'s `*ftp.Entry`, name and type). -/
structure LEntry where
  name : String
  etype : EntryType
deriving DecidableEq

/-- The listing entry for a node. -/
def entryView (n : FNode) : LEntry :=
  ⟨nodeName n, nodeType n⟩

/-- Error values the package returns to callers. -/
inductive Err where
  | pathNotFound (path : List String)
  | notFound (filename : String)
  | retrFailed (filename : String)
deriving DecidableEq

/-- Result of a Go call returning `(value, error)`: a value, an error, the
literal `return nil, nil` (neither), or a process abort (a nil-pointer
dereference panics and nothing is returned). -/
inductive FTPResult (α : Type) where
  | ok (val : α)
  | err (e : Err)
  | nilnil
  | crash
deriving DecidableEq

/-! ## Connections (robot.go lines 311-371) -/

/-- `FTPConnection` (lines 79-83): the session pointer (`none` = Go `nil`)
and the `cancelled` flag. -/
structure FTPConnection where
  c : Option Unit
  cancelled : Bool
deriving DecidableEq

/-- The connection `ftpSyncConnect` hands back (lines 311-344): on the
cancel branch (lines 326-329) the session stays `nil` and `cancelled` is
set; otherwise `ftpConnect` opened a session. -/
def ftpSyncConnectConn (cancelable cancelWins : Bool) : FTPConnection :=
  if cancelable && cancelWins then ⟨none, true⟩ else ⟨some (), false⟩

/-- Everything observable about one `ftpSyncConnect` call (lines 311-344):
the connection, the returned error, the `PendingConnections` counter while
the call waited in the `select` and after it returned, and whether a
transport session was opened.  `pendingBefore` is the counter's value when
the call started; line 323 increments it, lines 327/331 decrement it. -/
structure SyncConnectOut where
  conn : FTPConnection
  errv : Option Err
  pendingDuring : Nat
  pendingAfter : Nat
  sessionOpened : Bool
deriving DecidableEq

/-- `ftpSyncConnect` with `cancelable = true` (lines 321-337), as a function
of which `select` branch wins.  The cancel branch returns
`return connection, nil`: the error is `none`.  The semaphore send and
`ftpConnect` are modelled by `sessionOpened` (their interleaving is the
transition system `MStep` below). -/
def ftpSyncConnectRun (cancelable cancelWins : Bool) (pendingBefore : Nat) :
    SyncConnectOut :=
  if cancelable then
    if cancelWins then
      { conn := ⟨none, true⟩, errv := none,
        pendingDuring := pendingBefore + 1, pendingAfter := pendingBefore,
        sessionOpened := false }
    else
      { conn := ⟨some (), false⟩, errv := none,
        pendingDuring := pendingBefore + 1, pendingAfter := pendingBefore,
        sessionOpened := true }
  else
    { conn := ⟨some (), false⟩, errv := none,
      pendingDuring := pendingBefore, pendingAfter := pendingBefore,
      sessionOpened := true }

/-- `conn.c.ChangeDir(path)` on a connection whose session may be Go `nil`:
calling a method on a nil `*ftp.ServerConn` dereferences nil and panics, so
a `none` session is a `crash`.  Otherwise `ChangeDir` succeeds exactly when
`path` names a directory. -/
def changeDir (sess : Option Unit) (root : FNode) (path : List String) :
    FTPResult Unit :=
  match sess with
  | none => .crash
  | some _ =>
    match lookupNode root path with
    | some (.mkDir _ _) => .ok ()
    | _ => .err (.pathNotFound path)

/-- `ftpList` (lines 284-309): connect (possibly cancelled), the
`conn.cancelled` check (lines 292-294, before any use of the session),
`ChangeDir` as the existence test (lines 296-301), then `List` (line 303),
which returns the children's entries. -/
def ftpListRun (cancelable cancelWins : Bool) (root : FNode)
    (path : List String) : FTPResult (List LEntry) :=
  let conn := ftpSyncConnectConn cancelable cancelWins
  if conn.cancelled then .nilnil
  else
    match lookupNode root path with
    | some (.mkDir _ cs) => .ok (cs.map entryView)
    | _ => .err (.pathNotFound path)

/-- `GetFile` (lines 198-227): connect, then `conn.c.ChangeDir(path)` (line
208) — note this runs BEFORE the `conn.cancelled` check of line 215, so a
cancelled connection (nil session) crashes here — then the cancelled check,
then `RetrFrom(filename, offset)` (line 220) which streams the file's bytes
from `offset` to end of stream, then `ReadAll`. -/
def GetFileRun (cancelable cancelWins : Bool) (root : FNode)
    (filename : String) (path : List String) (offset : Nat) :
    FTPResult (List Nat) :=
  let conn := ftpSyncConnectConn cancelable cancelWins
  match changeDir conn.c root path with
  | .crash => .crash
  | .err _ => .err (.pathNotFound path)
  | .nilnil => .crash
  | .ok _ =>
    if conn.cancelled then .nilnil
    else
      match lookupNode root path with
      | some (.mkDir _ cs) =>
        match findChild cs filename with
        | some (.mkFile _ content) => .ok (content.drop offset)
        | _ => .err (.retrFailed filename)
      | _ => .err (.pathNotFound path)

/-! ## The search (robot.go lines 176-282)

`search` runs one task per directory: the task lists its directory, and for
each entry in order either delivers a result (name match, lines 252-271) —
the task stops there — or spawns a subtask for a subdirectory (lines
272-276).  The sends any task performs on the `result` and `sigError`
channels, collected in one traversal order (which sends exist does not
depend on the interleaving; which one the caller receives is separate). -/

/-- The metadata entry `search` builds on a match (lines 254-261): name,
containing directory, type. -/
structure FTPEntry where
  name : String
  path : List String
  etype : EntryType
deriving DecidableEq

/-- A send on one of `GetMeta`'s channels. -/
inductive Send where
  | result (e : FTPEntry)
  | sigErr (e : Err)
deriving DecidableEq

/-- Sends produced while the task at directory path `p` walks its entry list
(lines 251-277), together with those of every subtask it spawns.  On the
first entry named `target` the task delivers and processes no further
entries; a subdirectory entry spawns a subtask at `p ++ [name]`. -/
def loopSends (target : String) (p : List String) : List FNode → List Send
  | [] => []
  | .mkFile nm _ :: cs =>
    if nm = target then [.result ⟨nm, p, .file⟩]
    else loopSends target p cs
  | .mkDir nm ccs :: cs =>
    if nm = target then [.result ⟨nm, p, .folder⟩]
    else loopSends target (p ++ [nm]) ccs ++ loopSends target p cs

/-- All sends of one `search` call rooted at `path` (lines 233-282): the
root task's `ftpList` either fails — the task sends the error on `sigError`
(lines 245-249) — or yields the directory's entries. -/
def searchSends (root : FNode) (target : String) (path : List String) :
    List Send :=
  match lookupNode root path with
  | some (.mkDir _ cs) => loopSends target path cs
  | _ => [.sigErr (.pathNotFound path)]

/-- `GetMeta` (lines 176-194): wait for every task, then `select` on
`result` / `sigError` / `default`.  With no send pending the `default`
branch returns the not-found error of line 192; otherwise the model hands
over the first send (when sends exist, which one arrives first is a race —
the claims below only depend on the no-send case and on `.ok` outcomes). -/
def GetMeta (root : FNode) (target : String) (path : List String) :
    Except Err FTPEntry :=
  match searchSends root target path with
  | [] => .error (.notFound target)
  | .result e :: _ => .ok e
  | .sigErr e :: _ => .error e

/-- `Get` (lines 158-171): resolve via `GetMeta`, then fetch the bytes with
`GetFile(entry.Name, entry.Path, false, offset)` — the retrieval is not
cancellable. -/
def Get (root : FNode) (filename : String) (path : List String)
    (offset : Nat) : FTPResult (List Nat) :=
  match GetMeta root filename path with
  | .error e => .err e
  | .ok entry => GetFileRun false false root entry.name entry.path offset

/-- Does any strict descendant of a node in `cs` (or a member of `cs`
itself) carry the name `target`?  The search can only deliver when this
holds. -/
def occursList (target : String) : List FNode → Bool
  | [] => false
  | .mkFile nm _ :: cs => nm = target || occursList target cs
  | .mkDir nm ccs :: cs => nm = target || occursList target ccs || occursList target cs

/-! ## Session events of one search task (robot.go lines 238-309)

For claim C6 the lifetime of one task is flattened to the sequence of
events it performs, in program order: semaphore acquisition (`server.
Connections <- ...`, line 330/340), session open (`ftpConnect`, line 332),
the listing, slot release (`<-server.Connections`, line 365), session close
(`Quit`, line 366) and, afterwards, the spawning of subtasks (line 275).
The release/close pair runs when `ftpList` returns (the `defer` at line
287), before `search` looks at a single entry. -/

/-- One observable action of a search task. -/
inductive Ev where
  | acquire
  | openSess
  | listed
  | release
  | quit
  | spawn (name : String)
deriving DecidableEq

/-- Events of `ftpSyncConnect` (lines 311-344): a cancelled acquisition
performs neither the semaphore send nor `ftpConnect`. -/
def ftpSyncConnectEvents (cancelWins : Bool) : List Ev :=
  if cancelWins then [] else [.acquire, .openSess]

/-- Events of `ftpDisconnect` (lines 363-371): a cancelled connection
releases nothing; otherwise one receive from the semaphore, then `Quit`. -/
def ftpDisconnectEvents (cancelled : Bool) : List Ev :=
  if cancelled then [] else [.release, .quit]

/-- Events of one `ftpList` call (lines 284-309), including the deferred
`ftpDisconnect` that runs when the call returns: connect, the listing when
the path resolves, then release and quit. -/
def ftpListEvents (cancelWins : Bool) (root : FNode) (path : List String) :
    List Ev :=
  if cancelWins then []
  else
    match lookupNode root path with
    | some (.mkDir _ _) => [.acquire, .openSess, .listed, .release, .quit]
    | _ => [.acquire, .openSess, .release, .quit]

/-- Spawn events of the entry loop (lines 251-277): nothing after a match,
one spawn per subdirectory entry before it. -/
def spawnEvents (target : String) : List LEntry → List Ev
  | [] => []
  | e :: rest =>
    if e.name = target then []
    else
      (if e.etype = .folder then [.spawn e.name] else []) ++
        spawnEvents target rest

/-- The full event sequence of one search task: its `ftpList` (with the
deferred disconnect) and then, with the session already closed, the spawns
of its entry loop. -/
def searchTaskEvents (cancelWins : Bool) (root : FNode) (path : List String)
    (target : String) : List Ev :=
  ftpListEvents cancelWins root path ++
    match ftpListRun true cancelWins root path with
    | .ok l => spawnEvents target l
    | _ => []

/-- Is an event a spawn? -/
def isSpawnEv : Ev → Bool
  | .spawn _ => true
  | _ => false

/-- All events of a list are spawns. -/
def allSpawns (l : List Ev) : Bool :=
  l.all isSpawnEv

/-- After the first spawn event no session event (acquire, open, list,
release, quit) occurs: the slot and session work is over before fan-out. -/
def releaseBeforeSpawns : List Ev → Bool
  | [] => true
  | e :: rest => if isSpawnEv e then allSpawns rest else releaseBeforeSpawns rest

/-! ## ftpConnect (robot.go lines 346-361): fatal on transport failure -/

/-- Transport failures the external collaborator can surface. -/
inductive TErr where
  | connRefused
  | authFailed
  | timedOut
  | ioError
deriving DecidableEq

/-- How one `ftpConnect` call ends: with an open session, or with
`log.Fatal` terminating the whole process (lines 351 and 358) — in that
case no error value ever reaches a caller. -/
inductive ConnectOutcome where
  | sessionOk
  | fatalStop (e : TErr)
deriving DecidableEq

/-- `ftpConnect` (lines 346-361) as a function of what the dial and the
login return: both failure paths call `log.Fatal(err)`. -/
def ftpConnect (dial : Except TErr Unit) (login : Except TErr Unit) :
    ConnectOutcome :=
  match dial with
  | .error e => .fatalStop e
  | .ok _ =>
    match login with
    | .error e => .fatalStop e
    | .ok _ => .sessionOk

/-! ## The connection-admission transition system (claims C2, C5)

One state per interleaving point of the tasks of a single call.  Each task
follows `ftpSyncConnect` + work + `ftpDisconnect` (robot.go lines 311-371);
every program point that touches the shared semaphore channel, the
`PendingConnections` counter or a session is a separate transition:

  * `enterWait`: line 323, `atomic.AddInt32(&server.PendingConnections, 1)`
    and entry into the `select`;
  * `cancelWin`: lines 326-329, the `<-server.cancelPending` branch;
  * `acquireWin`: lines 330-331, the `server.Connections <- ...` branch —
    only enabled while the buffered channel has room (`tokens < cap`);
  * `acquireDirect`: line 340, the non-cancellable send;
  * `openSession`: lines 332/341, `ftpConnect` establishes the session;
  * `releaseSlot`: line 365, `<-server.Connections` — NOTE the code
    releases the slot while the session is still open;
  * `quitSession`: line 366, `connection.c.Quit()` closes the session. -/

/-- Program counter of one task of the admission system. -/
inductive TaskPC where
  | start
  | waiting
  | cancelledT
  | acquired
  | opened
  | releasedOpen
  | doneT
deriving DecidableEq

/-- Shared state: tokens in the buffered `Connections` channel, the
`PendingConnections` counter, and every task's program counter. -/
structure MState where
  tokens : Nat
  pending : Nat
  tasks : List TaskPC
deriving DecidableEq

/-- Occurrences of a program counter among the tasks. -/
def countPC (pc : TaskPC) : List TaskPC → Nat
  | [] => 0
  | x :: l => (if x = pc then 1 else 0) + countPC pc l

/-- Sessions open in a state: tasks past `openSession` and before
`quitSession`, whether or not they still hold their slot. -/
def openSessions (s : MState) : Nat :=
  countPC .opened s.tasks + countPC .releasedOpen s.tasks

/-- One interleaving step of the admission system with capacity `cap`. -/
inductive MStep (cap : Nat) : MState → MState → Prop where
  | enterWait (s : MState) (i : Nat)
      (h : s.tasks.get? i = some .start) :
      MStep cap s ⟨s.tokens, s.pending + 1, s.tasks.set i .waiting⟩
  | cancelWin (s : MState) (i : Nat)
      (h : s.tasks.get? i = some .waiting) :
      MStep cap s ⟨s.tokens, s.pending - 1, s.tasks.set i .cancelledT⟩
  | acquireWin (s : MState) (i : Nat)
      (h : s.tasks.get? i = some .waiting) (hc : s.tokens < cap) :
      MStep cap s ⟨s.tokens + 1, s.pending - 1, s.tasks.set i .acquired⟩
  | acquireDirect (s : MState) (i : Nat)
      (h : s.tasks.get? i = some .start) (hc : s.tokens < cap) :
      MStep cap s ⟨s.tokens + 1, s.pending, s.tasks.set i .acquired⟩
  | openSession (s : MState) (i : Nat)
      (h : s.tasks.get? i = some .acquired) :
      MStep cap s ⟨s.tokens, s.pending, s.tasks.set i .opened⟩
  | releaseSlot (s : MState) (i : Nat)
      (h : s.tasks.get? i = some .opened) :
      MStep cap s ⟨s.tokens - 1, s.pending, s.tasks.set i .releasedOpen⟩
  | quitSession (s : MState) (i : Nat)
      (h : s.tasks.get? i = some .releasedOpen) :
      MStep cap s ⟨s.tokens, s.pending, s.tasks.set i .doneT⟩

/-- Start state of a call with `n` connection attempts: empty semaphore, no
pending attempt, every task before its `ftpSyncConnect`. -/
def initM (n : Nat) : MState :=
  ⟨0, 0, List.replicate n .start⟩

/-- States a call with capacity `cap` and `n` tasks can reach. -/
def MReach (cap n : Nat) (s : MState) : Prop :=
  Relation.ReflTransGen (MStep cap) (initM n) s

/-! ## The search-coordination transition system (claim C1)

One task per directory of the fan-out.  The shared state is the
`haltSearch` channel — a Go channel that `close` fires (line 267); closing
it a second time panics the process, there is no idempotent path — the
`result` channel together with `GetMeta`'s single pending receive (lines
186-188), and the count of results actually delivered.  Transitions, from
robot.go lines 238-276:

  * `pruneExit`: the `<-server.haltSearch` branch of the `select`, enabled
    once the channel is closed;
  * `listNoMatch` / `listMatch`: the `default` branch runs `ftpList`; the
    entry loop either finds no entry named `target` or finds one;
  * `spawnSub`: line 275, `go server.search(...)` for a subdirectory;
  * `fireFirst`: line 267, `close(server.haltSearch)` on a still-open
    channel;
  * `fireAgain`: line 267 reached by a second matching task — closing a
    closed channel panics: the whole system crashes;
  * `deliverRes`: line 269, `result <- ftpEntry`, completed by `GetMeta`'s
    receive (line 187); the receive happens at most once per call. -/

/-- State of the one-shot halt signal: the channel open, closed, or the
process dead from a double close. -/
inductive HaltSig where
  | unfired
  | fired
  | crashed
deriving DecidableEq

/-- Program counter of one search task. -/
inductive SPC where
  | running
  | matched
  | waitSend
  | finished
deriving DecidableEq

/-- Shared state of one search call. -/
structure SState where
  halt : HaltSig
  callerReady : Bool
  delivered : Nat
  tasks : List SPC
deriving DecidableEq

/-- One interleaving step of the search coordinator.  Every step requires
`halt ≠ crashed`: after a panic nothing runs. -/
inductive SStep : SState → SState → Prop where
  | pruneExit (s : SState) (i : Nat)
      (h : s.tasks.get? i = some .running) (hh : s.halt = .fired) :
      SStep s ⟨s.halt, s.callerReady, s.delivered, s.tasks.set i .finished⟩
  | listNoMatch (s : SState) (i : Nat)
      (h : s.tasks.get? i = some .running) (hh : ¬ s.halt = .crashed) :
      SStep s ⟨s.halt, s.callerReady, s.delivered, s.tasks.set i .finished⟩
  | spawnSub (s : SState) (i : Nat)
      (h : s.tasks.get? i = some .running) (hh : ¬ s.halt = .crashed) :
      SStep s ⟨s.halt, s.callerReady, s.delivered, s.tasks ++ [.running]⟩
  | listMatch (s : SState) (i : Nat)
      (h : s.tasks.get? i = some .running) (hh : ¬ s.halt = .crashed) :
      SStep s ⟨s.halt, s.callerReady, s.delivered, s.tasks.set i .matched⟩
  | fireFirst (s : SState) (i : Nat)
      (h : s.tasks.get? i = some .matched) (hh : s.halt = .unfired) :
      SStep s ⟨.fired, s.callerReady, s.delivered, s.tasks.set i .waitSend⟩
  | fireAgain (s : SState) (i : Nat)
      (h : s.tasks.get? i = some .matched) (hh : s.halt = .fired) :
      SStep s ⟨.crashed, s.callerReady, s.delivered, s.tasks⟩
  | deliverRes (s : SState) (i : Nat)
      (h : s.tasks.get? i = some .waitSend) (hr : s.callerReady = true)
      (hh : ¬ s.halt = .crashed) :
      SStep s ⟨s.halt, false, s.delivered + 1, s.tasks.set i .finished⟩

/-- Start state of a search call with `n` initially running tasks. -/
def initS (n : Nat) : SState :=
  ⟨.unfired, true, 0, List.replicate n .running⟩

/-- States one search call can reach. -/
def SReach (n : Nat) (s : SState) : Prop :=
  Relation.ReflTransGen SStep (initS n) s

/-! ## Invariants of the two transition systems -/

/-- Inductive invariant of the admission system: the tokens in the buffered
channel are exactly the slots held by tasks between their semaphore send
and their release, the channel never holds more than its capacity, and
`PendingConnections` counts the tasks waiting in the `select`. -/
def InvM (cap : Nat) (s : MState) : Prop :=
  s.tokens = countPC .acquired s.tasks + countPC .opened s.tasks ∧
  s.tokens ≤ cap ∧
  s.pending = countPC .waiting s.tasks

/-- Inductive invariant of the search coordinator: while `GetMeta`'s receive
is still pending nothing was delivered, and never more than one result is
delivered. -/
def InvS (s : SState) : Prop :=
  (s.callerReady = true → s.delivered = 0) ∧ s.delivered ≤ 1

/-- Is an `Except` an error? -/
def exceptIsError {ε α : Type} : Except ε α → Bool
  | .error _ => true
  | .ok _ => false

/-! ## Concrete inputs for witnesses and counterexamples -/

/-- Children of the root of `wideTree`: the 4-directories-by-3-subdirectories
server of the spec's bounded fan-out test, no file named `target.txt`
anywhere. -/
def wideChildren : List FNode :=
  [.mkDir "d0" [.mkDir "s00" [.mkFile "f00" [0]],
                .mkDir "s01" [.mkFile "f01" [1]],
                .mkDir "s02" [.mkFile "f02" [2]]],
   .mkDir "d1" [.mkDir "s10" [.mkFile "f10" [3]],
                .mkDir "s11" [.mkFile "f11" [4]],
                .mkDir "s12" [.mkFile "f12" [5]]],
   .mkDir "d2" [.mkDir "s20" [.mkFile "f20" [6]],
                .mkDir "s21" [.mkFile "f21" [7]],
                .mkDir "s22" [.mkFile "f22" [8]]],
   .mkDir "d3" [.mkDir "s30" [.mkFile "f30" [9]],
                .mkDir "s31" [.mkFile "f31" [10]],
                .mkDir "s32" [.mkFile "f32" [11]]]]

/-- The bounded fan-out test server. -/
def wideTree : FNode :=
  .mkDir "" wideChildren

/-- Children of `/products` on the small test server. -/
def prodChildren : List FNode :=
  [.mkFile "data.txt" [10, 11, 12, 13, 14],
   .mkDir "empty" []]

/-- A small server holding `/products/data.txt` with bytes 10..14 and an
empty directory `/products/empty`. -/
def smallTree : FNode :=
  .mkDir "" [.mkDir "products" prodChildren]

/-- Admission-system state reached by: task 0 acquires, opens and releases
its slot while its session is still shutting down; task 1 then acquires the
freed slot and opens.  Both sessions are open. -/
def exM : MState :=
  ⟨1, 0, [.releasedOpen, .opened]⟩

/-- Search-coordinator state after two tasks both found a match and both
executed `close(server.haltSearch)`: the second close panicked. -/
def exS : SState :=
  ⟨.crashed, true, 0, [.waitSend, .matched]⟩

/-! ## Helper lemmas -/

theorem get_set_of_ne {α : Type} (y : α) :
    ∀ (l : List α) (i j : Nat), ¬ i = j → (l.set j y).get? i = l.get? i
  | [], _, _, _ => by simp
  | a :: l, i, 0, h => by
    cases i with
    | zero => exact absurd rfl h
    | succ k => simp [List.set]
  | a :: l, 0, j + 1, h => by simp [List.set]
  | a :: l, i + 1, j + 1, h => by
    simpa [List.set] using get_set_of_ne y l i j (fun he => h (by rw [he]))

/-- A step that rewrites the slot of a task that is not cancelled leaves a
cancelled task cancelled. -/
theorem set_keeps_cancelled {l : List TaskPC} {i j : Nat} {x y : TaskPC}
    (hj : l.get? j = some x) (hx : ¬ x = .cancelledT)
    (hi : l.get? i = some .cancelledT) :
    (l.set j y).get? i = some .cancelledT := by
  by_cases hij : i = j
  · subst hij
    rw [hi] at hj
    exact absurd (Option.some.inj hj).symm hx
  · rw [get_set_of_ne y l i j hij]
    exact hi

end Robot

namespace Robot

/-! ## Claim C4: transport failures terminate the process -/

/-- C4 (code_bug): the claim says no transport failure ever terminates the
process.  In the code, `ftpConnect` reacts to a dial failure and to a login
failure with `log.Fatal` (robot.go lines 351, 358): the process stops and
no error value reaches the caller of `Get`/`GetMeta`. -/
theorem C4_transport_failure_fatal :
    (∀ (e : TErr) (login : Except TErr Unit),
      ftpConnect (Except.error e) login = ConnectOutcome.fatalStop e) ∧
    (∀ e : TErr,
      ftpConnect (Except.ok ()) (Except.error e) = ConnectOutcome.fatalStop e) :=
  ⟨fun _ _ => rfl, fun _ => rfl⟩

/-! ## Claim C5: cancelled slot acquisition -/

/-- C5 counterexample: when cancellation wins the race, the claim says the
call returns an error indicating the attempt was cancelled.  It does not:
the cancel branch of `ftpSyncConnect` (robot.go line 329) executes
`return connection, nil`, so the connection comes back flagged cancelled
with a `nil` error. -/
theorem C5_counterexample :
    (ftpSyncConnectRun true true 0).conn.cancelled = true ∧
    (ftpSyncConnectRun true true 0).errv = none :=
  ⟨rfl, rfl⟩

/-- C5 (corrected): when the cancellation signal wins the race against slot
availability, the call returns a connection flagged `cancelled` together
with a `nil` error (not an error value), the pending-attempt count drops
back from `p + 1` to `p` (the slot request is withdrawn), and no transport
session is opened for that attempt — in the admission system, a task that
took the cancel branch stays cancelled forever, so it never reaches the
session-opening step. -/
theorem C5_cancelled_acquisition :
    (∀ p : Nat,
      (ftpSyncConnectRun true true p).conn.cancelled = true ∧
      (ftpSyncConnectRun true true p).errv = none ∧
      (ftpSyncConnectRun true true p).sessionOpened = false ∧
      (ftpSyncConnectRun true true p).pendingDuring = p + 1 ∧
      (ftpSyncConnectRun true true p).pendingAfter = p) ∧
    (∀ (cap : Nat) (s s' : MState) (i : Nat), MStep cap s s' →
      s.tasks.get? i = some .cancelledT → s'.tasks.get? i = some .cancelledT) := by
  refine ⟨fun p => ⟨rfl, rfl, rfl, rfl, rfl⟩, fun cap s s' i hstep hc => ?_⟩
  cases hstep with
  | enterWait j h => exact set_keeps_cancelled h (by simp) hc
  | cancelWin j h => exact set_keeps_cancelled h (by simp) hc
  | acquireWin j h hcap => exact set_keeps_cancelled h (by simp) hc
  | acquireDirect j h hcap => exact set_keeps_cancelled h (by simp) hc
  | openSession j h => exact set_keeps_cancelled h (by simp) hc
  | releaseSlot j h => exact set_keeps_cancelled h (by simp) hc
  | quitSession j h => exact set_keeps_cancelled h (by simp) hc

/-! ## Claim C10: cancelled GetFile / ftpList -/

/-- C10 counterexample: the claim says a cancelled `GetFile` returns nil
data and a nil error.  It cannot: `GetFile` calls `conn.c.ChangeDir(path)`
(robot.go line 208) before its `conn.cancelled` check (line 215), and a
cancelled connection's session pointer is Go `nil`, so the call
dereferences nil and panics instead of reaching the `return nil, nil`. -/
theorem C10_counterexample :
    GetFileRun true true smallTree "data.txt" ["products"] 0 =
      FTPResult.crash ∧
    ¬ (FTPResult.crash : FTPResult (List Nat)) = FTPResult.nilnil :=
  ⟨rfl, by simp⟩

/-- C10 (corrected): on a cancelled acquisition, `ftpList` — whose
`conn.cancelled` check (robot.go lines 292-294) runs before any use of the
session — returns nil data and nil error; `GetFile`, whose check sits after
the `ChangeDir` call on the nil session, crashes on the nil dereference
instead of returning nil, nil. -/
theorem C10_cancelled_outcomes :
    (∀ (root : FNode) (path : List String),
      ftpListRun true true root path = FTPResult.nilnil) ∧
    (∀ (root : FNode) (filename : String) (path : List String) (offset : Nat),
      GetFileRun true true root filename path offset = FTPResult.crash) :=
  ⟨fun _ _ => rfl, fun _ _ _ _ => rfl⟩

/-! ## Claim C7: missing path versus empty directory -/

/-- C7 (confirmed): listing a path that does not resolve on the server
yields the distinct path-not-found error (`ChangeDir` probe, robot.go lines
296-301), while an existing empty directory lists successfully as `[]` —
no error — and the search loop over an empty listing neither matches nor
spawns. -/
theorem C7_missing_path_vs_empty_dir (root : FNode) (path : List String)
    (target : String) :
    (lookupNode root path = none →
      ftpListRun true false root path = FTPResult.err (Err.pathNotFound path)) ∧
    (∀ nm, lookupNode root path = some (FNode.mkDir nm []) →
      ftpListRun true false root path = FTPResult.ok [] ∧
      loopSends target path [] = []) := by
  constructor
  · intro h
    simp [ftpListRun, ftpSyncConnectConn, h]
  · intro nm h
    refine ⟨?_, by simp [loopSends]⟩
    simp [ftpListRun, ftpSyncConnectConn, h]

/-- Witness for C7 at the small server: `/nope` does not exist and is
reported as path-not-found; `/products/empty` exists, is empty, and lists
as `[]` without error. -/
theorem C7_missing_path_vs_empty_dir_witness :
    ftpListRun true false smallTree ["nope"] =
      FTPResult.err (Err.pathNotFound ["nope"]) ∧
    ftpListRun true false smallTree ["products", "empty"] = FTPResult.ok [] :=
  ⟨(C7_missing_path_vs_empty_dir smallTree ["nope"] "x").1 rfl,
   ((C7_missing_path_vs_empty_dir smallTree ["products", "empty"] "x").2
     "empty" rfl).1⟩

/-! ## Claim C3: absent file, search terminates with not-found -/

/-- Under a forest containing no node named `target`, the search loop sends
nothing on either channel. -/
theorem loopSends_eq_nil (target : String) :
    ∀ (cs : List FNode) (p : List String), occursList target cs = false →
      loopSends target p cs = []
  | [], _, _ => by simp [loopSends]
  | .mkFile nm bs :: cs, p, h => by
    simp only [occursList, Bool.or_eq_false_iff, decide_eq_false_iff_not] at h
    rw [loopSends, if_neg h.1]
    exact loopSends_eq_nil target cs p h.2
  | .mkDir nm ccs :: cs, p, h => by
    simp only [occursList, Bool.or_eq_false_iff, decide_eq_false_iff_not] at h
    rw [loopSends, if_neg h.1.1,
      loopSends_eq_nil target ccs (p ++ [nm]) h.1.2,
      loopSends_eq_nil target cs p h.2]
    rfl

/-- C3 (confirmed): for every finite tree — arbitrary branching and depth —
whose search root resolves to a directory under which no node carries the
target name, the search sends nothing, every task runs to completion (the
model is a total function: the fan-out is finite and each task does finite
work, so `wg.Wait` returns), and `GetMeta` takes its `default` branch,
returning the not-found error of robot.go line 192. -/
theorem C3_absent_file_not_found (root : FNode) (target : String)
    (path : List String) (nm : String) (cs : List FNode)
    (hdir : lookupNode root path = some (FNode.mkDir nm cs))
    (habs : occursList target cs = false) :
    searchSends root target path = [] ∧
    GetMeta root target path = Except.error (Err.notFound target) := by
  have hs : searchSends root target path = [] := by
    rw [searchSends, hdir]
    exact loopSends_eq_nil target cs path habs
  exact ⟨hs, by rw [GetMeta, hs]⟩

/-- Witness for C3 on the spec's bounded fan-out server: 4 directories of 3
subdirectories each, `target.txt` absent everywhere. -/
theorem C3_absent_file_not_found_witness :
    searchSends wideTree "target.txt" [] = [] ∧
    GetMeta wideTree "target.txt" [] =
      Except.error (Err.notFound "target.txt") :=
  C3_absent_file_not_found wideTree "target.txt" [] "" wideChildren rfl
    (by simp only [occursList, wideChildren]; decide)

/-! ## Claim C9: retrieval returns the suffix from the offset -/

/-- Every result the search loop delivers carries the target name. -/
theorem loopSends_result_name (target : String) :
    ∀ (cs : List FNode) (p : List String) (e : FTPEntry),
      Send.result e ∈ loopSends target p cs → e.name = target
  | [], p, e => by simp [loopSends]
  | .mkFile nm bs :: cs, p, e => by
    rw [loopSends]
    by_cases hnm : nm = target
    · rw [if_pos hnm]
      intro hmem
      have he : Send.result e = Send.result ⟨nm, p, .file⟩ :=
        List.mem_singleton.mp hmem
      cases he
      exact hnm
    · rw [if_neg hnm]
      exact loopSends_result_name target cs p e
  | .mkDir nm ccs :: cs, p, e => by
    rw [loopSends]
    by_cases hnm : nm = target
    · rw [if_pos hnm]
      intro hmem
      have he : Send.result e = Send.result ⟨nm, p, .folder⟩ :=
        List.mem_singleton.mp hmem
      cases he
      exact hnm
    · rw [if_neg hnm]
      intro hmem
      rcases List.mem_append.mp hmem with h | h
      · exact loopSends_result_name target ccs (p ++ [nm]) e h
      · exact loopSends_result_name target cs p e h

/-- Every result a whole search call delivers carries the target name. -/
theorem searchSends_result_name (root : FNode) (target : String)
    (path : List String) (e : FTPEntry)
    (h : Send.result e ∈ searchSends root target path) : e.name = target := by
  rw [searchSends] at h
  cases hl : lookupNode root path with
  | none =>
    rw [hl] at h
    simp at h
  | some n =>
    cases n with
    | mkFile nm bs =>
      rw [hl] at h
      simp at h
    | mkDir nm cs =>
      rw [hl] at h
      exact loopSends_result_name target cs path e h

/-- A successful `GetMeta` returns an entry named after the target. -/
theorem GetMeta_ok_name (root : FNode) (target : String) (path : List String)
    (e : FTPEntry) (h : GetMeta root target path = Except.ok e) :
    e.name = target := by
  rw [GetMeta] at h
  cases hs : searchSends root target path with
  | nil =>
    rw [hs] at h
    simp at h
  | cons sd rest =>
    cases sd with
    | result e2 =>
      rw [hs] at h
      simp only [Except.ok.injEq] at h
      subst h
      exact searchSends_result_name root target path e2
        (by rw [hs]; exact List.mem_cons_self _ _)
    | sigErr er =>
      rw [hs] at h
      simp at h

/-- C9 (confirmed): whenever the location of the file is successfully
resolved — `GetMeta` returns an entry, the entry's path names a directory
on the server, and that directory holds a file of the target name with
content `bs` — `Get filename path offset` returns exactly `bs` from
`offset` to end of stream; at offset 0 that is the whole file. -/
theorem C9_offset_suffix (root : FNode) (filename : String)
    (path : List String) (offset : Nat) (e : FTPEntry) (nm : String)
    (cs : List FNode) (bs : List Nat)
    (hres : GetMeta root filename path = Except.ok e)
    (hdir : lookupNode root e.path = some (FNode.mkDir nm cs))
    (hfile : findChild cs filename = some (FNode.mkFile filename bs)) :
    Get root filename path offset = FTPResult.ok (List.drop offset bs) := by
  have hname : e.name = filename := GetMeta_ok_name root filename path e hres
  rw [Get, hres]
  show GetFileRun false false root e.name e.path offset =
    FTPResult.ok (List.drop offset bs)
  rw [hname]
  simp [GetFileRun, ftpSyncConnectConn, changeDir, hdir, hfile]

/-- Witness for C9: fetching `/products/data.txt` (bytes 10..14) at offset 2
returns the suffix 12, 13, 14. -/
theorem C9_offset_suffix_witness :
    Get smallTree "data.txt" [] 2 = FTPResult.ok [12, 13, 14] := by
  have hres : GetMeta smallTree "data.txt" [] =
      Except.ok ⟨"data.txt", ["products"], EntryType.file⟩ := by
    have hs : searchSends smallTree "data.txt" [] =
        [Send.result ⟨"data.txt", ["products"], EntryType.file⟩] := by
      have hl : lookupNode smallTree [] =
          some (FNode.mkDir "" [FNode.mkDir "products" prodChildren]) := rfl
      rw [searchSends, hl]
      simp only [loopSends, prodChildren]
      decide
    rw [GetMeta, hs]
  exact C9_offset_suffix smallTree "data.txt" [] 2
    ⟨"data.txt", ["products"], EntryType.file⟩ "products" prodChildren
    [10, 11, 12, 13, 14] hres rfl rfl

/-! ## Claim C6: one release per acquisition, before fan-out -/

/-- Spawn-phase events are spawns only. -/
theorem spawnEvents_all_spawns (target : String) (l : List LEntry) :
    allSpawns (spawnEvents target l) = true := by
  induction l with
  | nil => rfl
  | cons e rest ih =>
    rw [spawnEvents]
    by_cases h : e.name = target
    · rw [if_pos h]; rfl
    · rw [if_neg h]
      by_cases ht : e.etype = EntryType.folder
      · rw [if_pos ht]
        simpa [allSpawns, isSpawnEv] using ih
      · rw [if_neg ht]
        simpa [allSpawns] using ih

/-- A non-spawn event does not occur in an all-spawn list. -/
theorem count_eq_zero_of_allSpawns (ev : Ev) (hev : isSpawnEv ev = false)
    (l : List Ev) (h : allSpawns l = true) : l.count ev = 0 := by
  rw [List.count_eq_zero]
  intro hm
  rw [allSpawns, List.all_eq_true] at h
  have hsp := h ev hm
  rw [hev] at hsp
  exact Bool.false_ne_true hsp

/-- An all-spawn list trivially satisfies the ordering check. -/
theorem releaseBeforeSpawns_of_allSpawns (l : List Ev)
    (h : allSpawns l = true) : releaseBeforeSpawns l = true := by
  cases l with
  | nil => rfl
  | cons e rest =>
    rw [allSpawns, List.all_cons, Bool.and_eq_true] at h
    rw [releaseBeforeSpawns, if_pos h.1]
    exact h.2

/-- C6 (confirmed): over every server shape and either race outcome, a
search task's event sequence balances acquisitions and releases (at most
one of each), a cancelled acquisition performs no session event at all
(lines 326-329 skip the semaphore send; lines 363-371 skip the receive),
and after the first spawn no session event occurs: the slot is released and
the session closed by the deferred `ftpDisconnect` when `ftpList` returns
(line 287), before the entry loop fans out (line 275). -/
theorem C6_acquire_release_balanced (b : Bool) (root : FNode)
    (path : List String) (target : String) :
    ((searchTaskEvents b root path target).count Ev.acquire =
      (searchTaskEvents b root path target).count Ev.release) ∧
    (searchTaskEvents b root path target).count Ev.acquire ≤ 1 ∧
    searchTaskEvents true root path target = [] ∧
    releaseBeforeSpawns (searchTaskEvents b root path target) = true := by
  cases b with
  | true => exact ⟨rfl, Nat.zero_le 1, rfl, rfl⟩
  | false =>
    cases hl : lookupNode root path with
    | none =>
      have hev : searchTaskEvents false root path target =
          [Ev.acquire, Ev.openSess, Ev.release, Ev.quit] := by
        rw [searchTaskEvents, ftpListEvents, ftpListRun, hl]
        rfl
      exact ⟨by rw [hev]; decide, by rw [hev]; decide, rfl, by rw [hev]; decide⟩
    | some n =>
      cases n with
      | mkFile nm bs =>
        have hev : searchTaskEvents false root path target =
            [Ev.acquire, Ev.openSess, Ev.release, Ev.quit] := by
          rw [searchTaskEvents, ftpListEvents, ftpListRun, hl]
          rfl
        exact ⟨by rw [hev]; decide, by rw [hev]; decide, rfl, by rw [hev]; decide⟩
      | mkDir nm cs =>
        have hsp := spawnEvents_all_spawns target (cs.map entryView)
        have hev : searchTaskEvents false root path target =
            [Ev.acquire, Ev.openSess, Ev.listed, Ev.release, Ev.quit] ++
              spawnEvents target (cs.map entryView) := by
          rw [searchTaskEvents, ftpListEvents, ftpListRun, hl]
          rfl
        refine ⟨?_, ?_, rfl, ?_⟩
        · rw [hev, List.count_append, List.count_append,
            count_eq_zero_of_allSpawns Ev.acquire rfl _ hsp,
            count_eq_zero_of_allSpawns Ev.release rfl _ hsp]
          decide
        · rw [hev, List.count_append,
            count_eq_zero_of_allSpawns Ev.acquire rfl _ hsp]
          decide
        · rw [hev]
          rw [show releaseBeforeSpawns
              ([Ev.acquire, Ev.openSess, Ev.listed, Ev.release, Ev.quit] ++
                spawnEvents target (cs.map entryView)) =
              releaseBeforeSpawns (spawnEvents target (cs.map entryView))
              from rfl]
          exact releaseBeforeSpawns_of_allSpawns _ hsp

/-! ## Claims C2 and C1: the transition-system invariants -/

/-- Replacing one element changes the counts by the old and new element. -/
theorem countPC_set :
    ∀ (l : List TaskPC) (i : Nat) (x y pc : TaskPC), l.get? i = some x →
      countPC pc (l.set i y) + (if x = pc then 1 else 0) =
        countPC pc l + (if y = pc then 1 else 0)
  | [], i, x, y, pc, h => by simp at h
  | a :: l, 0, x, y, pc, h => by
    have hax : a = x := by simpa using h
    subst hax
    simp only [List.set, countPC]
    omega
  | a :: l, i + 1, x, y, pc, h => by
    have hrec := countPC_set l i x y pc (by simpa using h)
    simp only [List.set, countPC]
    omega

/-- A replicated list holds no other value. -/
theorem countPC_replicate_ne (pc x : TaskPC) (h : ¬ x = pc) :
    ∀ n : Nat, countPC pc (List.replicate n x) = 0
  | 0 => rfl
  | n + 1 => by
    simp only [List.replicate, countPC, if_neg h,
      countPC_replicate_ne pc x h n]

/-- Every admission step preserves the invariant. -/
theorem InvM_step {cap : Nat} {s s' : MState} (hstep : MStep cap s s')
    (h : InvM cap s) : InvM cap s' := by
  obtain ⟨h1, h2, h3⟩ := h
  cases hstep with
  | enterWait i hi =>
    have ha := countPC_set s.tasks i .start .waiting .acquired hi
    have ho := countPC_set s.tasks i .start .waiting .opened hi
    have hw := countPC_set s.tasks i .start .waiting .waiting hi
    simp at ha ho hw
    refine ⟨?_, h2, ?_⟩
    · show s.tokens = countPC .acquired (s.tasks.set i .waiting) +
        countPC .opened (s.tasks.set i .waiting)
      omega
    · show s.pending + 1 = countPC .waiting (s.tasks.set i .waiting)
      omega
  | cancelWin i hi =>
    have ha := countPC_set s.tasks i .waiting .cancelledT .acquired hi
    have ho := countPC_set s.tasks i .waiting .cancelledT .opened hi
    have hw := countPC_set s.tasks i .waiting .cancelledT .waiting hi
    simp at ha ho hw
    refine ⟨?_, h2, ?_⟩
    · show s.tokens = countPC .acquired (s.tasks.set i .cancelledT) +
        countPC .opened (s.tasks.set i .cancelledT)
      omega
    · show s.pending - 1 = countPC .waiting (s.tasks.set i .cancelledT)
      omega
  | acquireWin i hi hc =>
    have ha := countPC_set s.tasks i .waiting .acquired .acquired hi
    have ho := countPC_set s.tasks i .waiting .acquired .opened hi
    have hw := countPC_set s.tasks i .waiting .acquired .waiting hi
    simp at ha ho hw
    refine ⟨?_, ?_, ?_⟩
    · show s.tokens + 1 = countPC .acquired (s.tasks.set i .acquired) +
        countPC .opened (s.tasks.set i .acquired)
      omega
    · show s.tokens + 1 ≤ cap
      omega
    · show s.pending - 1 = countPC .waiting (s.tasks.set i .acquired)
      omega
  | acquireDirect i hi hc =>
    have ha := countPC_set s.tasks i .start .acquired .acquired hi
    have ho := countPC_set s.tasks i .start .acquired .opened hi
    have hw := countPC_set s.tasks i .start .acquired .waiting hi
    simp at ha ho hw
    refine ⟨?_, ?_, ?_⟩
    · show s.tokens + 1 = countPC .acquired (s.tasks.set i .acquired) +
        countPC .opened (s.tasks.set i .acquired)
      omega
    · show s.tokens + 1 ≤ cap
      omega
    · show s.pending = countPC .waiting (s.tasks.set i .acquired)
      omega
  | openSession i hi =>
    have ha := countPC_set s.tasks i .acquired .opened .acquired hi
    have ho := countPC_set s.tasks i .acquired .opened .opened hi
    have hw := countPC_set s.tasks i .acquired .opened .waiting hi
    simp at ha ho hw
    refine ⟨?_, h2, ?_⟩
    · show s.tokens = countPC .acquired (s.tasks.set i .opened) +
        countPC .opened (s.tasks.set i .opened)
      omega
    · show s.pending = countPC .waiting (s.tasks.set i .opened)
      omega
  | releaseSlot i hi =>
    have ha := countPC_set s.tasks i .opened .releasedOpen .acquired hi
    have ho := countPC_set s.tasks i .opened .releasedOpen .opened hi
    have hw := countPC_set s.tasks i .opened .releasedOpen .waiting hi
    simp at ha ho hw
    refine ⟨?_, ?_, ?_⟩
    · show s.tokens - 1 = countPC .acquired (s.tasks.set i .releasedOpen) +
        countPC .opened (s.tasks.set i .releasedOpen)
      omega
    · show s.tokens - 1 ≤ cap
      omega
    · show s.pending = countPC .waiting (s.tasks.set i .releasedOpen)
      omega
  | quitSession i hi =>
    have ha := countPC_set s.tasks i .releasedOpen .doneT .acquired hi
    have ho := countPC_set s.tasks i .releasedOpen .doneT .opened hi
    have hw := countPC_set s.tasks i .releasedOpen .doneT .waiting hi
    simp at ha ho hw
    refine ⟨?_, h2, ?_⟩
    · show s.tokens = countPC .acquired (s.tasks.set i .doneT) +
        countPC .opened (s.tasks.set i .doneT)
      omega
    · show s.pending = countPC .waiting (s.tasks.set i .doneT)
      omega

/-- The invariant holds in every reachable state of the admission system. -/
theorem InvM_reach (cap n : Nat) (s : MState) (h : MReach cap n s) :
    InvM cap s := by
  induction h with
  | refl =>
    refine ⟨?_, Nat.zero_le cap, ?_⟩
    · show 0 = countPC .acquired (List.replicate n .start) +
        countPC .opened (List.replicate n .start)
      rw [countPC_replicate_ne TaskPC.acquired TaskPC.start (by simp),
        countPC_replicate_ne TaskPC.opened TaskPC.start (by simp)]
    · show 0 = countPC .waiting (List.replicate n .start)
      rw [countPC_replicate_ne TaskPC.waiting TaskPC.start (by simp)]
  | tail hr hstep ih => exact InvM_step hstep ih

/-- C2 (corrected): in every reachable state of a call, the buffered channel
holds at most `cap` tokens and the tokens are exactly the slots held by
tasks between acquisition and release, so at most `cap` sessions that still
hold their slot are open at once — every session open is preceded by an
acquisition.  The claim's stronger bound on ALL open sessions fails: the
code releases the slot before `Quit` closes the session (robot.go lines
365-366), so a released-but-still-open session plus `cap` slot-holding
sessions can be open together (the counterexample). -/
theorem C2_slot_bound (cap n : Nat) (s : MState) (h : MReach cap n s) :
    s.tokens ≤ cap ∧
    s.tokens = countPC .acquired s.tasks + countPC .opened s.tasks ∧
    countPC .opened s.tasks ≤ cap := by
  obtain ⟨h1, h2, h3⟩ := InvM_reach cap n s h
  exact ⟨h2, h1, by omega⟩

/-- Witness for C2 at the start state of a two-task call with capacity 1. -/
theorem C2_slot_bound_witness :
    (initM 2).tokens ≤ 1 ∧
    (initM 2).tokens = countPC .acquired (initM 2).tasks +
      countPC .opened (initM 2).tasks ∧
    countPC .opened (initM 2).tasks ≤ 1 :=
  C2_slot_bound 1 2 (initM 2) Relation.ReflTransGen.refl

/-- C2 counterexample: with capacity 1, task 0 acquires, opens and then
releases its slot while its session is still open (`ftpDisconnect` receives
from the semaphore before calling `Quit`); task 1 acquires the freed slot
and opens.  The reached state has two open sessions — more than the
configured maximum of 1 — refuting the claim's bound for every
interleaving. -/
theorem C2_counterexample :
    MReach 1 2 exM ∧ openSessions exM = 2 ∧ 1 < openSessions exM := by
  refine ⟨?_, rfl, by decide⟩
  refine Relation.ReflTransGen.head (MStep.enterWait (initM 2) 0 rfl) ?_
  refine Relation.ReflTransGen.head (MStep.acquireWin _ 0 rfl (by decide)) ?_
  refine Relation.ReflTransGen.head (MStep.openSession _ 0 rfl) ?_
  refine Relation.ReflTransGen.head (MStep.releaseSlot _ 0 rfl) ?_
  refine Relation.ReflTransGen.head (MStep.enterWait _ 1 rfl) ?_
  refine Relation.ReflTransGen.head (MStep.acquireWin _ 1 rfl (by decide)) ?_
  refine Relation.ReflTransGen.head (MStep.openSession _ 1 rfl) ?_
  exact Relation.ReflTransGen.refl

/-- Every search-coordination step preserves the delivery invariant. -/
theorem InvS_step {s s' : SState} (hstep : SStep s s') (h : InvS s) :
    InvS s' := by
  obtain ⟨h1, h2⟩ := h
  cases hstep with
  | pruneExit i hi hh => exact ⟨h1, h2⟩
  | listNoMatch i hi hh => exact ⟨h1, h2⟩
  | spawnSub i hi hh => exact ⟨h1, h2⟩
  | listMatch i hi hh => exact ⟨h1, h2⟩
  | fireFirst i hi hh => exact ⟨h1, h2⟩
  | fireAgain i hi hh => exact ⟨h1, h2⟩
  | deliverRes i hi hr hh =>
    refine ⟨?_, ?_⟩
    · intro hcr
      exact absurd hcr (by simp)
    · show s.delivered + 1 ≤ 1
      have := h1 hr
      omega

/-- The delivery invariant holds in every reachable state. -/
theorem InvS_reach (n : Nat) (s : SState) (h : SReach n s) : InvS s := by
  induction h with
  | refl => exact ⟨fun _ => rfl, Nat.zero_le 1⟩
  | tail hr hstep ih => exact InvS_step hstep ih

/-- C1 (corrected): in every reachable state of a search call at most one
result has been delivered to the caller (and none while the caller's single
receive is still pending) — first-found wins, no duplicate delivery, and
only a task that fired the halt signal can deliver.  The claim's
idempotency of the halt signal fails: the signal is `close(server.
haltSearch)`, and a second close panics instead of being a no-op (the
counterexample reaches the crashed state). -/
theorem C1_single_delivery (n : Nat) (s : SState) (h : SReach n s) :
    s.delivered ≤ 1 ∧ (s.callerReady = true → s.delivered = 0) := by
  obtain ⟨h1, h2⟩ := InvS_reach n s h
  exact ⟨h2, h1⟩

/-- Witness for C1 at the start state of a three-task search call. -/
theorem C1_single_delivery_witness :
    (initS 3).delivered ≤ 1 ∧
    ((initS 3).callerReady = true → (initS 3).delivered = 0) :=
  C1_single_delivery 3 (initS 3) Relation.ReflTransGen.refl

/-- C1 counterexample: two tasks, each listing a directory that contains
the target, both pass their halt check before either fires; the first
`close(haltSearch)` succeeds and the second panics the process — firing the
one-shot signal a second time is a crash, not a no-op as the claim
states. -/
theorem C1_counterexample :
    SReach 2 exS ∧ exS.halt = HaltSig.crashed := by
  refine ⟨?_, rfl⟩
  refine Relation.ReflTransGen.head (SStep.listMatch (initS 2) 0 rfl (by decide)) ?_
  refine Relation.ReflTransGen.head (SStep.listMatch _ 1 rfl (by decide)) ?_
  refine Relation.ReflTransGen.head (SStep.fireFirst _ 0 rfl rfl) ?_
  refine Relation.ReflTransGen.head (SStep.fireAgain _ 1 rfl rfl) ?_
  exact Relation.ReflTransGen.refl

/-! ## Claim C8: the validation rule of NewFTPMachine

The loop of `isDomainName` is proved equivalent to the declarative rule set
`DomainSpec`; the equivalence is the content of the corrected claim. -/

theorem isLetterU_ne_dot {c : Char} (h : isLetterU c = true) : ¬ c = '.' := by
  intro he
  subst he
  exact absurd h (by decide)

theorem isLetterU_ne_dash {c : Char} (h : isLetterU c = true) : ¬ c = '-' := by
  intro he
  subst he
  exact absurd h (by decide)

theorem isDigitC_ne_dot {c : Char} (h : isDigitC c = true) : ¬ c = '.' := by
  intro he
  subst he
  exact absurd h (by decide)

theorem isDigitC_ne_dash {c : Char} (h : isDigitC c = true) : ¬ c = '-' := by
  intro he
  subst he
  exact absurd h (by decide)

theorem okPair_of_ne {a b : Char} (hd : ¬ b = '-') (ho : ¬ b = '.') :
    okPair a b :=
  ⟨fun h => absurd h hd, fun h => absurd h ho⟩

theorem okPair_dash {a : Char} : okPair a '-' ↔ ¬ a = '.' := by
  unfold okPair
  constructor
  · intro h
    exact h.1 rfl
  · intro h
    exact ⟨fun _ => h, fun hc => absurd hc (by decide)⟩

theorem okPair_dot {a : Char} : okPair a '.' ↔ (¬ a = '.' ∧ ¬ a = '-') := by
  unfold okPair
  constructor
  · intro h
    exact h.2 rfl
  · intro h
    exact ⟨fun hc => absurd hc (by decide), fun _ => h⟩

theorem splitLabels_ne_nil : ∀ s : List Char, ¬ splitLabels s = []
  | [] => by simp [splitLabels]
  | c :: cs => by
    rw [splitLabels]
    by_cases h : c = '.'
    · rw [if_pos h]
      simp
    · rw [if_neg h]
      cases hs : splitLabels cs with
      | nil => simp
      | cons lab labs => simp

theorem splitLabels_cons_dot (cs : List Char) :
    splitLabels ('.' :: cs) = [] :: splitLabels cs := by
  rw [splitLabels, if_pos rfl]

theorem splitLabels_cons_ne (c : Char) (cs : List Char) (h : ¬ c = '.') :
    splitLabels (c :: cs) =
      (c :: (splitLabels cs).headD []) :: (splitLabels cs).tail := by
  rw [splitLabels, if_neg h]
  cases hs : splitLabels cs with
  | nil => exact absurd hs (splitLabels_ne_nil cs)
  | cons lab labs => simp

theorem headLabelLen_cons_dot (cs : List Char) :
    headLabelLen ('.' :: cs) = 0 := by
  rw [headLabelLen, splitLabels_cons_dot]
  rfl

theorem headLabelLen_cons_ne (c : Char) (cs : List Char) (h : ¬ c = '.') :
    headLabelLen (c :: cs) = headLabelLen cs + 1 := by
  rw [headLabelLen, splitLabels_cons_ne c cs h]
  simp [headLabelLen]

/-- Stepping over one ordinary (non-dot) character shifts the rule set by
one position: the pair constraint with the previous character holds, the
character is legal, and the head-label budget moves from `pl` to
`pl + 1`. -/
theorem char_step_aux (prev c : Char) (cs : List Char) (pl : Nat)
    (P Q : Prop) (hdot : ¬ c = '.') (hgood : goodChar c = true)
    (hok : okPair prev c) (hPQ : P ↔ Q) :
    ((List.Chain' okPair (prev :: c :: cs) ∧
      (∀ x ∈ c :: cs, goodChar x = true) ∧
      ¬ (prev :: c :: cs).getLast (List.cons_ne_nil _ _) = '-' ∧
      pl + headLabelLen (c :: cs) ≤ 63 ∧
      (∀ lab ∈ (splitLabels (c :: cs)).tail, lab.length ≤ 63) ∧ P) ↔
     (List.Chain' okPair (c :: cs) ∧
      (∀ x ∈ cs, goodChar x = true) ∧
      ¬ (c :: cs).getLast (List.cons_ne_nil _ _) = '-' ∧
      (pl + 1) + headLabelLen cs ≤ 63 ∧
      (∀ lab ∈ (splitLabels cs).tail, lab.length ≤ 63) ∧ Q)) := by
  rw [List.chain'_cons, List.getLast_cons (List.cons_ne_nil c cs),
    headLabelLen_cons_ne c cs hdot, splitLabels_cons_ne c cs hdot]
  refine Iff.trans (and_congr (and_iff_right hok) Iff.rfl) ?_
  refine and_congr Iff.rfl ?_
  refine and_congr (Iff.trans List.forall_mem_cons (and_iff_right hgood)) ?_
  refine and_congr Iff.rfl ?_
  refine and_congr (by omega) ?_
  refine and_congr ?_ hPQ
  constructor
  · intro h lab hm
    exact h lab hm
  · intro h lab hm
    exact h lab hm

/-- Characterization of the `isDomainName` loop from an arbitrary reachable
loop state: `prev` is the previous byte ('.' before the first), `pl` the
running label length (zero exactly after a dot), `nn` the running
non-numeric flag.  The loop plus final checks succeed exactly when the
declarative per-position rules hold, with `pl` pre-charged against the
first label's budget. -/
theorem domainLoop_char :
    ∀ (s : List Char) (prev : Char) (nn : Bool) (pl : Nat),
      (pl = 0 ↔ prev = '.') →
      (loopFinish (domainLoop ⟨prev, nn, pl⟩ s) = true ↔
        (List.Chain' okPair (prev :: s) ∧
         (∀ c ∈ s, goodChar c = true) ∧
         ¬ (prev :: s).getLast (List.cons_ne_nil _ _) = '-' ∧
         pl + headLabelLen s ≤ 63 ∧
         (∀ lab ∈ (splitLabels s).tail, lab.length ≤ 63) ∧
         (nn = true ∨ ∃ c ∈ s, dashOrLetter c = true)))
  | [], prev, nn, pl, hpp => by
    show loopFinish (some ⟨prev, nn, pl⟩) = true ↔ _
    rw [loopFinish]
    simp only [Bool.and_eq_true, Bool.not_eq_eq_eq_not, Bool.not_true,
      decide_eq_false_iff_not]
    constructor
    · rintro ⟨⟨hlast, hpl⟩, hnn⟩
      refine ⟨List.chain'_singleton prev, by simp, ?_, ?_, ?_, Or.inl hnn⟩
      · simpa using hlast
      · have : headLabelLen ([] : List Char) = 0 := rfl
        omega
      · intro lab hm
        simp [splitLabels] at hm
    · rintro ⟨hch, hgood, hlast, hpl, htl, hnn⟩
      refine ⟨⟨by simpa using hlast, ?_⟩, ?_⟩
      · have : headLabelLen ([] : List Char) = 0 := rfl
        omega
      · rcases hnn with h | ⟨c, hc, _⟩
        · exact h
        · exact absurd hc (by simp)
  | c :: cs, prev, nn, pl, hpp => by
    by_cases h1 : isLetterU c = true
    · have hstep : domainStep ⟨prev, nn, pl⟩ c = some ⟨c, true, pl + 1⟩ := by
        rw [domainStep, if_pos h1]
      rw [show domainLoop ⟨prev, nn, pl⟩ (c :: cs) =
        domainLoop ⟨c, true, pl + 1⟩ cs by rw [domainLoop, hstep]]
      rw [domainLoop_char cs c true (pl + 1)
        ⟨fun h => absurd h (Nat.succ_ne_zero pl),
         fun hc => absurd hc (isLetterU_ne_dot h1)⟩]
      refine (char_step_aux prev c cs pl _ _ (isLetterU_ne_dot h1)
        (by simp [goodChar, h1]) (okPair_of_ne (isLetterU_ne_dash h1)
          (isLetterU_ne_dot h1)) ?_).symm
      constructor
      · intro _
        exact Or.inl rfl
      · intro _
        exact Or.inr ⟨c, List.mem_cons_self _ _, by simp [dashOrLetter, h1]⟩
    · by_cases h2 : isDigitC c = true
      · have hstep : domainStep ⟨prev, nn, pl⟩ c = some ⟨c, nn, pl + 1⟩ := by
          rw [domainStep, if_neg h1, if_pos h2]
        rw [show domainLoop ⟨prev, nn, pl⟩ (c :: cs) =
          domainLoop ⟨c, nn, pl + 1⟩ cs by rw [domainLoop, hstep]]
        rw [domainLoop_char cs c nn (pl + 1)
          ⟨fun h => absurd h (Nat.succ_ne_zero pl),
           fun hc => absurd hc (isDigitC_ne_dot h2)⟩]
        refine (char_step_aux prev c cs pl _ _ (isDigitC_ne_dot h2)
          (by simp [goodChar, h2]) (okPair_of_ne (isDigitC_ne_dash h2)
            (isDigitC_ne_dot h2)) ?_).symm
        have hcd : dashOrLetter c = false := by
          rw [dashOrLetter, Bool.or_eq_false_iff]
          exact ⟨by simpa using h1, by simpa using isDigitC_ne_dash h2⟩
        constructor
        · rintro (h | ⟨x, hx, hdx⟩)
          · exact Or.inl h
          · rcases List.mem_cons.mp hx with rfl | hx2
            · rw [hcd] at hdx
              exact absurd hdx (by simp)
            · exact Or.inr ⟨x, hx2, hdx⟩
        · rintro (h | ⟨x, hx, hdx⟩)
          · exact Or.inl h
          · exact Or.inr ⟨x, List.mem_cons_of_mem _ hx, hdx⟩
      · by_cases h3 : c = '-'
        · subst h3
          by_cases h4 : prev = '.'
          · have hstep : domainStep ⟨prev, nn, pl⟩ '-' = none := by
              rw [domainStep, if_neg h1, if_neg h2, if_pos rfl, if_pos h4]
            rw [show domainLoop ⟨prev, nn, pl⟩ ('-' :: cs) = none by
              rw [domainLoop, hstep]]
            refine iff_of_false (by simp [loopFinish]) ?_
            rintro ⟨hch, _⟩
            rw [List.chain'_cons] at hch
            exact (okPair_dash.mp hch.1) h4
          · have hstep : domainStep ⟨prev, nn, pl⟩ '-' =
                some ⟨'-', true, pl + 1⟩ := by
              rw [domainStep, if_neg h1, if_neg h2, if_pos rfl, if_neg h4]
            rw [show domainLoop ⟨prev, nn, pl⟩ ('-' :: cs) =
              domainLoop ⟨'-', true, pl + 1⟩ cs by rw [domainLoop, hstep]]
            rw [domainLoop_char cs '-' true (pl + 1)
              ⟨fun h => absurd h (Nat.succ_ne_zero pl), fun hc =>
                absurd hc (by decide)⟩]
            refine (char_step_aux prev '-' cs pl _ _ (by decide)
              (by decide) (okPair_dash.mpr h4) ?_).symm
            constructor
            · intro _
              exact Or.inl rfl
            · intro _
              exact Or.inr ⟨'-', List.mem_cons_self _ _, by decide⟩
        · by_cases h5 : c = '.'
          · subst h5
            by_cases h4 : prev = '.' ∨ prev = '-'
            · have hstep : domainStep ⟨prev, nn, pl⟩ '.' = none := by
                rw [domainStep, if_neg h1, if_neg h2,
                  if_neg (by decide : ¬ ('.' : Char) = '-'), if_pos rfl,
                  if_pos h4]
              rw [show domainLoop ⟨prev, nn, pl⟩ ('.' :: cs) = none by
                rw [domainLoop, hstep]]
              refine iff_of_false (by simp [loopFinish]) ?_
              rintro ⟨hch, _⟩
              rw [List.chain'_cons] at hch
              exact absurd (okPair_dot.mp hch.1) (by tauto)
            · by_cases h6 : pl > 63 ∨ pl = 0
              · have hpl63 : pl > 63 := by
                  rcases h6 with h | h
                  · exact h
                  · exact absurd (hpp.mp h) (fun hc => h4 (Or.inl hc))
                have hstep : domainStep ⟨prev, nn, pl⟩ '.' = none := by
                  rw [domainStep, if_neg h1, if_neg h2,
                    if_neg (by decide : ¬ ('.' : Char) = '-'), if_pos rfl,
                    if_neg h4, if_pos h6]
                rw [show domainLoop ⟨prev, nn, pl⟩ ('.' :: cs) = none by
                  rw [domainLoop, hstep]]
                refine iff_of_false (by simp [loopFinish]) ?_
                rintro ⟨_, _, _, hhd, _⟩
                rw [headLabelLen_cons_dot] at hhd
                omega
              · have hstep : domainStep ⟨prev, nn, pl⟩ '.' =
                    some ⟨'.', nn, 0⟩ := by
                  rw [domainStep, if_neg h1, if_neg h2,
                    if_neg (by decide : ¬ ('.' : Char) = '-'), if_pos rfl,
                    if_neg h4, if_neg h6]
                rw [show domainLoop ⟨prev, nn, pl⟩ ('.' :: cs) =
                  domainLoop ⟨'.', nn, 0⟩ cs by rw [domainLoop, hstep]]
                rw [domainLoop_char cs '.' nn 0 (by simp)]
                have hple : pl ≤ 63 := by omega
                rw [List.chain'_cons, List.getLast_cons
                  (List.cons_ne_nil '.' cs), headLabelLen_cons_dot,
                  splitLabels_cons_dot, List.tail_cons]
                constructor
                · rintro ⟨hch, hgood, hlast, hhd, htl, hnn⟩
                  refine ⟨⟨okPair_dot.mpr ⟨fun hc => h4 (Or.inl hc),
                      fun hc => h4 (Or.inr hc)⟩, hch⟩,
                    List.forall_mem_cons.mpr ⟨by decide, hgood⟩, hlast,
                    by omega, ?_, ?_⟩
                  · intro lab hm
                    rcases hsp : splitLabels cs with _ | ⟨hd, tl⟩
                    · exact absurd hsp (splitLabels_ne_nil cs)
                    · rw [hsp] at hm
                      rcases List.mem_cons.mp hm with rfl | hm2
                      · have hh : headLabelLen cs = lab.length := by
                          rw [headLabelLen, hsp]
                          rfl
                        omega
                      · exact htl lab (by rw [hsp, List.tail_cons]; exact hm2)
                  · rcases hnn with h | ⟨x, hx, hdx⟩
                    · exact Or.inl h
                    · exact Or.inr ⟨x, List.mem_cons_of_mem _ hx, hdx⟩
                · rintro ⟨⟨hok, hch⟩, hgood, hlast, hhd, hlabs, hnn⟩
                  refine ⟨hch, fun x hx => hgood x (List.mem_cons_of_mem _ hx),
                    hlast, ?_, ?_, ?_⟩
                  · rcases hsp : splitLabels cs with _ | ⟨hd, tl⟩
                    · exact absurd hsp (splitLabels_ne_nil cs)
                    · have hh : headLabelLen cs = hd.length := by
                        rw [headLabelLen, hsp]
                        rfl
                      have := hlabs hd (by rw [hsp]; exact List.mem_cons_self _ _)
                      omega
                  · intro lab hm
                    rcases hsp : splitLabels cs with _ | ⟨hd, tl⟩
                    · exact absurd hsp (splitLabels_ne_nil cs)
                    · rw [hsp, List.tail_cons] at hm
                      exact hlabs lab (by rw [hsp]; exact List.mem_cons_of_mem _ hm)
                  · rcases hnn with h | ⟨x, hx, hdx⟩
                    · exact Or.inl h
                    · rcases List.mem_cons.mp hx with rfl | hx2
                      · exact absurd hdx (by decide)
                      · exact Or.inr ⟨x, hx2, hdx⟩
          · have hstep : domainStep ⟨prev, nn, pl⟩ c = none := by
              rw [domainStep, if_neg h1, if_neg h2, if_neg h3, if_neg h5]
            rw [show domainLoop ⟨prev, nn, pl⟩ (c :: cs) = none by
              rw [domainLoop, hstep]]
            refine iff_of_false (by simp [loopFinish]) ?_
            rintro ⟨_, hgood, _⟩
            have := hgood c (List.mem_cons_self _ _)
            rw [goodChar] at this
            simp only [Bool.or_eq_true, decide_eq_true_eq] at this
            rcases this with ((hl | hdg) | hd) | hdo
            · exact h1 hl
            · exact h2 hdg
            · exact h3 hd
            · exact h5 hdo

/-- The code's validator agrees with the declarative rule set. -/
theorem isDomainName_eq_true_iff (s : List Char) :
    isDomainName s = true ↔ DomainSpec s := by
  rw [isDomainName]
  by_cases hlen : s.length = 0 ∨ s.length > 254 ∨
      (s.length = 254 ∧ ¬ s.getLast? = some '.')
  · rw [if_pos hlen]
    constructor
    · intro h
      exact absurd h (by simp)
    · rintro ⟨h1, h2, _⟩
      exfalso
      rcases hlen with h | h | ⟨h, hn⟩
      · omega
      · rcases h2 with h2 | ⟨h2, _⟩ <;> omega
      · rcases h2 with h2 | ⟨_, h2⟩
        · omega
        · exact hn h2
  · rw [if_neg hlen]
    push_neg at hlen
    rw [domainLoop_char s '.' false 0 (by simp)]
    constructor
    · rintro ⟨hch, hgood, hlast, hhd, htl, hnn⟩
      refine ⟨by omega, ?_, hch, hgood, hlast, ?_, ?_⟩
      · rcases Nat.lt_or_ge s.length 254 with h | h
        · left
          omega
        · right
          exact ⟨by omega, hlen.2.2 (by omega)⟩
      · intro lab hmem
        rcases hsp : splitLabels s with _ | ⟨hd, tl⟩
        · exact absurd hsp (splitLabels_ne_nil s)
        · rw [hsp] at hmem
          rcases List.mem_cons.mp hmem with rfl | hm
          · have hh : headLabelLen s = lab.length := by
              rw [headLabelLen, hsp]
              rfl
            omega
          · exact htl lab (by rw [hsp, List.tail_cons]; exact hm)
      · rcases hnn with h | h
        · exact absurd h (by simp)
        · exact h
    · rintro ⟨hne, hlen2, hch, hgood, hlast, hlab, hex⟩
      refine ⟨hch, hgood, hlast, ?_, ?_, Or.inr hex⟩
      · rcases hsp : splitLabels s with _ | ⟨hd, tl⟩
        · exact absurd hsp (splitLabels_ne_nil s)
        · have hh : headLabelLen s = hd.length := by
            rw [headLabelLen, hsp]
            rfl
          have := hlab hd (by rw [hsp]; exact List.mem_cons_self _ _)
          omega
      · intro lab hmem
        rcases hsp : splitLabels s with _ | ⟨hd, tl⟩
        · exact absurd hsp (splitLabels_ne_nil s)
        · rw [hsp, List.tail_cons] at hmem
          exact hlab lab (by rw [hsp]; exact List.mem_cons_of_mem _ hmem)

set_option maxRecDepth 20000 in
/-- C8 counterexample: the 254-character hostname `hostEx` (labels of 63,
63, 63 and 62 letters) satisfies every rule the claim lists — labels at
most 63 characters, total length at most 254, no hyphen trouble, a
non-numeric character — and `maxConnections = 5` is in range, yet
`NewFTPMachine` rejects it: `isDomainName` only accepts a 254-byte name
that ends with a dot. -/
theorem C8_counterexample :
    claimDomainValid hostEx = true ∧
    (1 : Int) ≤ 5 ∧ (5 : Int) ≤ connectionLimit ∧
    NewFTPMachine hostEx 5 = Except.error NewErr.invalidHostname := by
  refine ⟨by decide, by decide, by decide, ?_⟩
  rfl

/-- C8 (corrected): `NewFTPMachine` returns a validation error — before any
I/O, the function is pure — exactly when the hostname fails the precise
rule set `DomainSpec` (labels of 1 to 63 characters made of letters,
digits, underscores and hyphens, no hyphen at a label boundary, total
length at most 253 — 254 only with a terminal dot — and at least one
character that is not a digit and not a dot) or `maxConnections` lies
outside `[1, 65535]`. -/
theorem C8_validation_iff (hostname : List Char) (maxConnections : Int) :
    exceptIsError (NewFTPMachine hostname maxConnections) = true ↔
      (¬ DomainSpec hostname ∨ maxConnections < 1 ∨
        maxConnections > connectionLimit) := by
  rw [NewFTPMachine]
  by_cases hd : isDomainName hostname = true
  · rw [if_neg (by simpa using hd)]
    by_cases hr : maxConnections > connectionLimit ∨ maxConnections < 1
    · rw [if_pos hr]
      simp only [exceptIsError]
      constructor
      · intro _
        rcases hr with h | h
        · exact Or.inr (Or.inr h)
        · exact Or.inr (Or.inl h)
      · intro _
        trivial
    · rw [if_neg hr]
      simp only [exceptIsError]
      constructor
      · intro h
        exact absurd h (by simp)
      · rintro (h | h | h)
        · exact absurd ((isDomainName_eq_true_iff hostname).mp hd) h
        · exact absurd (Or.inr h) hr
        · exact absurd (Or.inl h) hr
  · rw [if_pos (by simpa using hd)]
    simp only [exceptIsError]
    constructor
    · intro _
      refine Or.inl ?_
      intro hds
      exact hd ((isDomainName_eq_true_iff hostname).mpr hds)
    · intro _
      trivial

end Robot
